import Mathlib

/-!
Shallow embedding of `src/health_patch.js` (NodeHealthChecker).

The JavaScript file defines a `NodeHealthChecker` class with:
* configuration constants `HEALTH_CONFIG` (`MAX_LATENCY = 150`, `CHECK_TIMEOUT = 5000`,
  `REQUIRED_TESTS = 3`, `STABILITY = 1.0`);
* `validateResponse(response, latency)` — pure classification of a probe response;
* `verifyRealConnection(node)` — one fetch; modelled here as a pure function of the
  network outcome (success with latency/status, or a transport failure with an
  optional error message);
* `testStability(node)` — up to `REQUIRED_TESTS` sequential probes, short-circuiting
  on the first unhealthy one;
* `checkAllNodes(nodeList)` — the batch loop over nodes, updating the checker's
  `healthyNodes` map, `unhealthyNodes` set and `stats` counters, then sorting the
  collected healthy nodes by score descending (JS `Array.prototype.sort` is stable);
* `calculateScore(currentLatency, avgLatency)`;
* `getBestNode()` — loop over the `healthyNodes` map.

Modelling conventions:
* Latencies are `Nat` milliseconds (`Date.now()` differences); averages and scores
  are `ℚ` (JS numbers on these integer inputs behave as exact rationals).
* A JS `Map` is a `List (key × value)` in insertion order; `Map.set` on an existing
  key overwrites the value in place (JS preserves the original position); a JS `Set`
  is a `List key` without duplicates, in insertion order.
* `response.status` is a `Nat`; JS truthiness makes status `0` (opaque / no-cors
  responses) count as "no status available".
* The network is an oracle: each node comes with a function from attempt index to
  `FetchOutcome` for the stability probes, plus one `FetchOutcome` for the final
  confirmation probe.
* `stats.healthRate` in JS is `(successfulChecks / totalChecks * 100).toFixed(1)+'%'`.
  We model the numeric value as `Option ℚ`: `none` models the `NaN` produced by
  `0/0` (which `toFixed` renders as the string `"NaN%"`); `some q` models the finite
  percentage before decimal formatting.
-/

namespace HealthPatch

/-- Constant `HEALTH_CONFIG.MAX_LATENCY`: maximum acceptable latency in ms. -/
def MAX_LATENCY : Nat := 150

/-- Constant `HEALTH_CONFIG.CHECK_TIMEOUT`: per-probe timeout in ms (not otherwise observable
in the pure model; the oracle already folds timeouts into `FetchOutcome.failure`). -/
def CHECK_TIMEOUT : Nat := 5000

/-- Constant `HEALTH_CONFIG.REQUIRED_TESTS`: number of stability probes per node. -/
def REQUIRED_TESTS : Nat := 3

/-- A node: `id` plus target `url` (the url is only consumed by the network oracle). -/
structure Node where
  id : String
  url : String
deriving DecidableEq, Repr

/-- Outcome of one `fetch` call: either a response (elapsed latency, status code —
`0` when the status is unavailable, as for opaque no-cors responses) or a thrown
transport error carrying `error.message` (`none` when the message is absent). -/
inductive FetchOutcome where
  | success (latency : Nat) (status : Nat)
  | failure (errMsg : Option String)
deriving DecidableEq, Repr

/-- The object literal returned by `verifyRealConnection` (timestamp omitted:
nothing downstream reads it). `latency` is `none` on the failure branch (JS `null`);
`status` is `none` on the failure branch (field absent in the JS literal). -/
structure ProbeResult where
  healthy : Bool
  latency : Option Nat
  status : Option Nat
  error : Option String
deriving DecidableEq, Repr

/-- Source `validateResponse(response, latency)`: returns false when
`latency > HEALTH_CONFIG.MAX_LATENCY`, false when `latency < 1`, false when
`response.status && response.status >= 400`, and true otherwise.
A status of `0` is falsy in JS, so the status check is skipped for it. -/
def validateResponse (status : Nat) (latency : Nat) : Bool :=
  if latency > MAX_LATENCY then false
  else if latency < 1 then false
  else if status ≠ 0 ∧ status ≥ 400 then false
  else true

/-- Source `verifyRealConnection` as a function of the network outcome: on a response it
classifies with `validateResponse` and records the measured latency and status
(the JS stores `response.status || 0`, i.e. the raw status); on a thrown error it
returns unhealthy with `latency: null` and the error message. -/
def verifyRealConnection (o : FetchOutcome) : ProbeResult :=
  match o with
  | .success latency status =>
      { healthy := validateResponse status latency
        latency := some latency
        status := some status
        error := none }
  | .failure errMsg =>
      { healthy := false, latency := none, status := none, error := errMsg }

/-- JS `x || d` for a string-or-absent value: falls back to `d` when the value is
absent (`undefined`) or the empty string (both falsy). -/
def jsOrString (o : Option String) (d : String) : String :=
  match o with
  | some s => if s = "" then d else s
  | none => d

/-- The object literal returned by `testStability`: the failure branch sets
`stable:false, attempt, reason`; the success branch sets
`stable:true, attempts = REQUIRED_TESTS, avgLatency, successRate = 1.0`.
We merge both shapes into one record with `Option` fields for those present on
only one branch (`attempt` holds `attempt` resp. `attempts`). -/
structure StabilityResult where
  stable : Bool
  attempt : Nat
  reason : Option String
  avgLatency : Option ℚ
  successRate : Option ℚ
deriving DecidableEq, Repr

/-- Numeric value of a probe's latency as used in the JS arithmetic
(`null` coerces to `0`; on paths where it is used the latency is never `null`). -/
def probeLatencyQ (r : ProbeResult) : ℚ := (r.latency.getD 0 : Nat)

/-- Success branch of `testStability`: average latency over the accumulated
results, `successRate = 1.0`. -/
def stableResult (results : List ProbeResult) : StabilityResult :=
  { stable := true
    attempt := REQUIRED_TESTS
    reason := none
    avgLatency := some ((results.map probeLatencyQ).sum / results.length)
    successRate := some 1 }

/-- Failure branch of `testStability` at 0-based loop index `i`:
`{ stable:false, attempt: i+1, reason: result.error || '连接失败' }`. -/
def unstableResult (i : Nat) (r : ProbeResult) : StabilityResult :=
  { stable := false
    attempt := i + 1
    reason := some (jsOrString r.error "连接失败")
    avgLatency := none
    successRate := none }

/-- The `for` loop of `testStability`: `probe j` is the classified result of the
`j`-th probe attempt (0-based); `acc` accumulates the healthy results so far,
`i` is the loop index, `fuel` the remaining iterations. -/
def testStabilityGo (probe : Nat → ProbeResult) (acc : List ProbeResult)
    (i : Nat) (fuel : Nat) : StabilityResult :=
  match fuel with
  | 0 => stableResult acc
  | fuel + 1 =>
      let r := probe i
      if r.healthy then testStabilityGo probe (acc ++ [r]) (i + 1) fuel
      else unstableResult i r

/-- Source `testStability(node)`, with the sequence of probe outcomes supplied as an
oracle indexed by attempt number (the inter-attempt 300 ms delay has no effect on
the computed value and is not modelled). -/
def testStability (probe : Nat → ProbeResult) : StabilityResult :=
  testStabilityGo probe [] 0 REQUIRED_TESTS

/-- Source `calculateScore(currentLatency, avgLatency)`:
`Math.max(0, 100 - currentLatency) + (Math.abs(currentLatency - avgLatency) < 20 ? 20 : 0)`. -/
def calculateScore (currentLatency : ℚ) (avgLatency : ℚ) : ℚ :=
  let latencyScore := max 0 (100 - currentLatency)
  let stabilityBonus := if |currentLatency - avgLatency| < 20 then (20 : ℚ) else 0
  latencyScore + stabilityBonus

/-- An entry of the `healthyNodes` map: `{...node, health: finalCheck, stability: stabilityTest}`. -/
structure HealthEntry where
  node : Node
  health : ProbeResult
  stability : StabilityResult
deriving DecidableEq, Repr

/-- An element of the `healthyNodes` array built by `checkAllNodes`:
`{...node, latency, avgLatency, score}`. -/
structure ScoredNode where
  node : Node
  latency : Nat
  avgLatency : ℚ
  score : ℚ
deriving DecidableEq, Repr

/-- The `this.stats` counters of the checker. -/
structure Stats where
  totalChecks : Nat
  successfulChecks : Nat
  failedChecks : Nat
deriving DecidableEq, Repr

/-- The mutable state of a `NodeHealthChecker` instance: `healthyNodes` is a JS
`Map` (association list in insertion order), `unhealthyNodes` a JS `Set`
(duplicate-free list in insertion order), plus the stats counters. -/
structure CheckerState where
  healthyNodes : List (String × HealthEntry)
  unhealthyNodes : List String
  stats : Stats
deriving DecidableEq, Repr

/-- The state built by the constructor: empty map, empty set, zeroed stats. -/
def initialChecker : CheckerState :=
  { healthyNodes := [], unhealthyNodes := [], stats := ⟨0, 0, 0⟩ }

/-- JS `Map.set`: overwrite in place when the key exists (the entry keeps its
original insertion position), append otherwise. -/
def mapSet (m : List (String × HealthEntry)) (k : String) (v : HealthEntry) :
    List (String × HealthEntry) :=
  if m.any (fun p => p.1 == k) then
    m.map (fun p => if p.1 == k then (k, v) else p)
  else m ++ [(k, v)]

/-- JS `Set.add`: append if not already present. -/
def setAdd (s : List String) (k : String) : List String :=
  if k ∈ s then s else s ++ [k]

/-- The per-node network oracle: outcomes of the stability probes (by attempt
index) and of the final confirmation probe. -/
structure ProbeEnv where
  attemptOutcome : Nat → FetchOutcome
  finalOutcome : FetchOutcome

/-- Classified result of the `i`-th stability probe for an environment. -/
def probeAt (env : ProbeEnv) (i : Nat) : ProbeResult :=
  verifyRealConnection (env.attemptOutcome i)

/-- One iteration of the `for (const node of nodeList)` loop in `checkAllNodes`:
threads the checker state and the `healthyNodes` array being collected. -/
def processNode (acc : CheckerState × List ScoredNode) (item : Node × ProbeEnv) :
    CheckerState × List ScoredNode :=
  let st := acc.1
  let collected := acc.2
  let node := item.1
  let env := item.2
  let stabilityTest := testStability (probeAt env)
  if stabilityTest.stable then
    let finalCheck := verifyRealConnection env.finalOutcome
    if finalCheck.healthy then
      let lat := finalCheck.latency.getD 0
      let avg := stabilityTest.avgLatency.getD 0
      let scored : ScoredNode :=
        { node := node, latency := lat, avgLatency := avg
          score := calculateScore (lat : ℚ) avg }
      let st' : CheckerState :=
        { st with
          healthyNodes := mapSet st.healthyNodes node.id
            { node := node, health := finalCheck, stability := stabilityTest }
          stats := { st.stats with
            successfulChecks := st.stats.successfulChecks + 1
            totalChecks := st.stats.totalChecks + 1 } }
      (st', collected ++ [scored])
    else
      let st' : CheckerState :=
        { st with
          unhealthyNodes := setAdd st.unhealthyNodes node.id
          stats := { st.stats with
            failedChecks := st.stats.failedChecks + 1
            totalChecks := st.stats.totalChecks + 1 } }
      (st', collected)
  else
    let st' : CheckerState :=
      { st with
        unhealthyNodes := setAdd st.unhealthyNodes node.id
        stats := { st.stats with
          failedChecks := st.stats.failedChecks + 1
          totalChecks := st.stats.totalChecks + 1 } }
    (st', collected)

/-- The whole node loop of `checkAllNodes`: final checker state and the
`healthyNodes` array in input order (before sorting). -/
def collectNodes (st : CheckerState) (items : List (Node × ProbeEnv)) :
    CheckerState × List ScoredNode :=
  items.foldl processNode (st, [])

/-- Sort order used by `healthyNodes.sort((a, b) => b.score - a.score)`:
descending by score. JS `sort` is stable, so the faithful embedding is a stable
descending sort — `List.insertionSort` with this relation. -/
def scoreGE (a b : ScoredNode) : Prop := b.score ≤ a.score

instance : DecidableRel scoreGE := fun a b => inferInstanceAs (Decidable (b.score ≤ a.score))

instance : IsTotal ScoredNode scoreGE := ⟨fun a b => le_total b.score a.score⟩

instance : IsTrans ScoredNode scoreGE := ⟨fun _ _ _ h1 h2 => le_trans h2 h1⟩

/-- The stats object returned by `checkAllNodes`: a spread of `this.stats` plus
`healthRate = (successfulChecks / totalChecks * 100).toFixed(1) + '%'`.
`healthRate = none` models the `NaN` produced by `0/0` when `totalChecks = 0`
(rendered `"NaN%"` by `toFixed`); otherwise `some` of the exact percentage. -/
structure RunStats where
  totalChecks : Nat
  successfulChecks : Nat
  failedChecks : Nat
  healthRate : Option ℚ
deriving DecidableEq, Repr

/-- The `{healthy, stats}` object returned by `checkAllNodes`. -/
structure CheckResult where
  healthy : List ScoredNode
  stats : RunStats
deriving DecidableEq, Repr

/-- Source `checkAllNodes(nodeList)`: run the loop, sort the collected healthy nodes by
score descending (stable), and build the returned stats. Returns the updated
checker state alongside the returned object. -/
def checkAllNodes (st : CheckerState) (items : List (Node × ProbeEnv)) :
    CheckerState × CheckResult :=
  let out := collectNodes st items
  let st' := out.1
  let sortedNodes := List.insertionSort scoreGE out.2
  (st',
    { healthy := sortedNodes
      stats :=
        { totalChecks := st'.stats.totalChecks
          successfulChecks := st'.stats.successfulChecks
          failedChecks := st'.stats.failedChecks
          healthRate :=
            if st'.stats.totalChecks = 0 then none
            else some ((st'.stats.successfulChecks : ℚ) / st'.stats.totalChecks * 100) } })

/-- The numeric value `node.health.latency` takes in the JS comparisons of
`getBestNode` (`null` coerces to `0`; entries written by `checkAllNodes` always
hold an actual latency). -/
def entryLatency (e : HealthEntry) : Int := (e.health.latency.getD 0 : Nat)

/-- The `for (const [id, node] of this.healthyNodes)` loop of `getBestNode`,
threading `(bestNode, highestScore)` initialized to `(null, -1)`. -/
def getBestLoop (acc : Option HealthEntry × Int) :
    List (String × HealthEntry) → Option HealthEntry × Int
  | [] => acc
  | p :: rest =>
      let acc' :=
        if entryLatency p.2 < acc.2 ∨ acc.2 = -1 then (some p.2, entryLatency p.2) else acc
      getBestLoop acc' rest

/-- Source `getBestNode()` (the tracked variable is called
`highestScore` but is compared against raw latency; the loop keeps the entry
with the lowest `health.latency`, ties to the earliest). -/
def getBestNode (st : CheckerState) : Option HealthEntry :=
  (getBestLoop (none, -1) st.healthyNodes).1

/-- Whether one loop iteration of `checkAllNodes` classifies the node as
succeeded: stability passed and the confirmation probe is healthy. -/
def nodeSucceeds (item : Node × ProbeEnv) : Bool :=
  (testStability (probeAt item.2)).stable && (verifyRealConnection item.2.finalOutcome).healthy

/-- Proof helper: the value `(bestNode, highestScore)` computed by the
`getBestNode` loop once the accumulator holds an actual entry. Keeps the entry
with the strictly smallest `entryLatency`, ties to the earliest. -/
def bestScan (b : HealthEntry) : List (String × HealthEntry) → HealthEntry
  | [] => b
  | p :: rest =>
      if entryLatency p.2 < entryLatency b then bestScan p.2 rest else bestScan b rest

/-- Concrete fixture: a node used by the concrete evaluations below. -/
def nodeA : Node := { id := "A", url := "http://a.example" }

/-- Concrete fixture: a second node. -/
def nodeB : Node := { id := "B", url := "http://b.example" }

/-- Concrete fixture: every probe (stability and confirmation) responds in 50 ms
with status 200. -/
def envGood : ProbeEnv :=
  { attemptOutcome := fun _ => .success 50 200
    finalOutcome := .success 50 200 }

/-- Concrete fixture: every probe throws a connection error. -/
def envFailing : ProbeEnv :=
  { attemptOutcome := fun _ => .failure (some "ECONNREFUSED")
    finalOutcome := .failure (some "ECONNREFUSED") }

/-- Concrete fixture: probe oracle whose attempts 0 and 1 are healthy and whose
attempt 2 throws with message "request aborted". -/
def probeTwoThenFail : Nat → ProbeResult := fun j =>
  if j < 2 then verifyRealConnection (.success 50 200)
  else verifyRealConnection (.failure (some "request aborted"))

/-- Concrete fixture: probe oracle with healthy attempts of latencies 100, 110, 90. -/
def probeGoodLat : Nat → ProbeResult := fun j =>
  verifyRealConnection (.success (if j = 0 then 100 else if j = 1 then 110 else 90) 200)

/-- Concrete fixture: a healthy-map entry whose confirmation latency is `lat`. -/
def entryOf (id : String) (lat : Nat) : HealthEntry :=
  { node := { id := id, url := "http://x.example" }
    health := { healthy := true, latency := some lat, status := some 200, error := none }
    stability :=
      { stable := true, attempt := REQUIRED_TESTS, reason := none
        avgLatency := some lat, successRate := some 1 } }

/-- Concrete fixture: a checker state whose registry holds entries with
confirmation latencies 80 then 60 (in insertion order). -/
def stTwoEntries : CheckerState :=
  { healthyNodes := [("n80", entryOf "n80" 80), ("n60", entryOf "n60" 60)]
    unhealthyNodes := []
    stats := ⟨2, 2, 0⟩ }

/-! Theorems. -/

theorem validateResponse_true_iff (status latency : Nat) :
    validateResponse status latency = true ↔
      1 ≤ latency ∧ latency ≤ MAX_LATENCY ∧ (status ≠ 0 → status < 400) := by
  unfold validateResponse
  split_ifs with h1 h2 h3
  · simp only [false_iff]
    intro h
    omega
  · simp only [false_iff]
    intro h
    omega
  · simp only [false_iff]
    intro h
    rcases h3 with ⟨hs, hge⟩
    have := h.2.2 hs
    omega
  · simp only [true_iff]
    refine ⟨by omega, by omega, fun hs => ?_⟩
    by_contra hlt
    exact h3 ⟨hs, by omega⟩

/-- C4: a probe is classified healthy iff its latency is at least 1 ms and at
most `MAX_LATENCY` (150 ms), and, when a status code is present (nonzero in the
JS truthiness sense), the status is below 400; with no status code available only
the two latency rules gate health. -/
theorem validateResponse_spec (status latency : Nat) :
    validateResponse status latency = true ↔
      1 ≤ latency ∧ latency ≤ MAX_LATENCY ∧ (status ≠ 0 → status < 400) :=
  validateResponse_true_iff status latency

/-- C9: for every current latency and average latency, the score is
`max 0 (100 - current) + (20 if |current - average| < 20 else 0)`;
in particular the score of `(50, 55)` is 70 and the score of `(50, 90)` is 50. -/
theorem calculateScore_spec :
    (∀ cur avg : ℚ, calculateScore cur avg =
        max 0 (100 - cur) + (if |cur - avg| < 20 then 20 else 0))
    ∧ calculateScore 50 55 = 70 ∧ calculateScore 50 90 = 50 := by
  refine ⟨fun cur avg => rfl, ?_, ?_⟩
  · show max 0 (100 - 50 : ℚ) + (if |(50 : ℚ) - 55| < 20 then (20 : ℚ) else 0) = 70
    norm_num
  · show max 0 (100 - 50 : ℚ) + (if |(50 : ℚ) - 90| < 20 then (20 : ℚ) else 0) = 50
    norm_num

/-- C1: on the empty node list (fresh checker), `checkAllNodes` returns an empty
healthy list, but the health rate is the JS `NaN` (modelled `none`) produced by
`0/0`, rendered `"NaN%"` — not the special-cased `"0.0%"` the spec requires. -/
theorem checkAll_empty_input :
    (checkAllNodes initialChecker []).2.healthy = []
    ∧ (checkAllNodes initialChecker []).2.stats.healthRate = none := by
  exact ⟨rfl, rfl⟩

theorem processNode_totalChecks (acc : CheckerState × List ScoredNode)
    (item : Node × ProbeEnv) :
    (processNode acc item).1.stats.totalChecks = acc.1.stats.totalChecks + 1 := by
  unfold processNode
  dsimp only
  split
  · split
    · rfl
    · rfl
  · rfl

theorem foldl_processNode_totalChecks (items : List (Node × ProbeEnv)) :
    ∀ acc : CheckerState × List ScoredNode,
      (items.foldl processNode acc).1.stats.totalChecks
        = acc.1.stats.totalChecks + items.length := by
  induction items with
  | nil => intro acc; rfl
  | cons item rest ih =>
      intro acc
      simp only [List.foldl_cons, List.length_cons]
      rw [ih, processNode_totalChecks]
      omega

/-- C3 counterexample: the stats are not reset between invocations. On a fresh
checker, run `checkAllNodes` twice with the same single (failing) node: the
second invocation's returned `totalChecks` is 2, although that invocation's node
list has length 1. -/
theorem checkAll_second_run_totalChecks :
    (checkAllNodes (checkAllNodes initialChecker [(nodeA, envFailing)]).1
        [(nodeA, envFailing)]).2.stats.totalChecks = 2
    ∧ List.length [(nodeA, envFailing)] = 1 := by
  exact ⟨rfl, rfl⟩

/-- C3 amended: the stats counters persist across invocations of `checkAllNodes`
on the same checker; `totalChecks` after an invocation equals its value before
the invocation plus the length of that invocation's node list (so it equals the
list length only when the checker's counters start at zero, e.g. a fresh
checker). -/
theorem checkAll_totalChecks_accumulates (st : CheckerState)
    (items : List (Node × ProbeEnv)) :
    (checkAllNodes st items).2.stats.totalChecks = st.stats.totalChecks + items.length
    ∧ (checkAllNodes st items).1.stats.totalChecks
        = st.stats.totalChecks + items.length := by
  have h := foldl_processNode_totalChecks items (st, [])
  exact ⟨h, h⟩

theorem testStabilityGo_healthy_step (probe : Nat → ProbeResult)
    (acc : List ProbeResult) (i fuel : Nat) (h : (probe i).healthy = true) :
    testStabilityGo probe acc i (fuel + 1)
      = testStabilityGo probe (acc ++ [probe i]) (i + 1) fuel := by
  simp [testStabilityGo, h]

theorem testStabilityGo_fail_step (probe : Nat → ProbeResult)
    (acc : List ProbeResult) (i fuel : Nat) (h : (probe i).healthy = false) :
    testStabilityGo probe acc i (fuel + 1) = unstableResult i (probe i) := by
  simp [testStabilityGo, h]

theorem testStability_fail_at (probe : Nat → ProbeResult) (k : Nat)
    (hk : k < REQUIRED_TESTS)
    (hprev : ∀ j, j < k → (probe j).healthy = true)
    (hfail : (probe k).healthy = false) :
    testStability probe = unstableResult k (probe k) := by
  have hk3 : k < 3 := hk
  interval_cases k
  · exact testStabilityGo_fail_step probe [] 0 2 hfail
  · have h0 : (probe 0).healthy = true := hprev 0 (by omega)
    have e1 : testStabilityGo probe [] 0 3 = testStabilityGo probe [probe 0] 1 2 :=
      testStabilityGo_healthy_step probe [] 0 2 h0
    have e2 : testStabilityGo probe [probe 0] 1 2 = unstableResult 1 (probe 1) :=
      testStabilityGo_fail_step probe [probe 0] 1 1 hfail
    exact e1.trans e2
  · have h0 : (probe 0).healthy = true := hprev 0 (by omega)
    have h1 : (probe 1).healthy = true := hprev 1 (by omega)
    have e1 : testStabilityGo probe [] 0 3 = testStabilityGo probe [probe 0] 1 2 :=
      testStabilityGo_healthy_step probe [] 0 2 h0
    have e2 : testStabilityGo probe [probe 0] 1 2
        = testStabilityGo probe [probe 0, probe 1] 2 1 :=
      testStabilityGo_healthy_step probe [probe 0] 1 1 h1
    have e3 : testStabilityGo probe [probe 0, probe 1] 2 1 = unstableResult 2 (probe 2) :=
      testStabilityGo_fail_step probe [probe 0, probe 1] 2 0 hfail
    exact (e1.trans e2).trans e3

/-- C5: when attempt `k` (0-based index `k`, 1-based index `k + 1`) is the first
unhealthy stability probe, `testStability` returns `stable = false`,
`attempt = k + 1`, and `reason` equal to that attempt's error message (with the
generic "连接失败" fallback when the message is absent or empty); moreover the
result depends only on the probes up to index `k`, i.e. no later attempt is
issued. -/
theorem testStability_first_failure (probe : Nat → ProbeResult) (k : Nat)
    (hk : k < REQUIRED_TESTS)
    (hprev : ∀ j, j < k → (probe j).healthy = true)
    (hfail : (probe k).healthy = false) :
    testStability probe =
      { stable := false, attempt := k + 1
        reason := some (jsOrString (probe k).error "连接失败")
        avgLatency := none, successRate := none }
    ∧ ∀ probe2 : Nat → ProbeResult, (∀ j, j ≤ k → probe2 j = probe j) →
        testStability probe2 = testStability probe := by
  constructor
  · exact testStability_fail_at probe k hk hprev hfail
  · intro probe2 hag
    have hprev2 : ∀ j, j < k → (probe2 j).healthy = true := by
      intro j hj
      rw [hag j (by omega)]
      exact hprev j hj
    have hfail2 : (probe2 k).healthy = false := by
      rw [hag k (le_refl k)]
      exact hfail
    rw [testStability_fail_at probe2 k hk hprev2 hfail2,
      testStability_fail_at probe k hk hprev hfail, hag k (le_refl k)]

/-- C5 witness: with attempts `[healthy, healthy, unhealthy]` (failure message
"request aborted"), `testStability` returns `stable = false`, `attempt = 3`,
`reason = "request aborted"`. -/
theorem testStability_first_failure_witness :
    testStability probeTwoThenFail =
      { stable := false, attempt := 3, reason := some "request aborted"
        avgLatency := none, successRate := none } := by
  have h := (testStability_first_failure probeTwoThenFail 2 (by decide)
    (fun j hj => by
      have hj2 : j < 2 := hj
      interval_cases j <;> rfl)
    (by rfl)).1
  rw [h]
  rfl

/-- C6: when all `REQUIRED_TESTS` stability probes are healthy, `testStability`
returns `stable = true`, `attempt = REQUIRED_TESTS`, `avgLatency` equal to the
arithmetic mean of the three attempts' latencies, and `successRate = 1`. -/
theorem testStability_all_healthy (probe : Nat → ProbeResult)
    (h : ∀ j, j < REQUIRED_TESTS → (probe j).healthy = true) :
    testStability probe =
      { stable := true, attempt := REQUIRED_TESTS, reason := none
        avgLatency := some ((probeLatencyQ (probe 0) + probeLatencyQ (probe 1)
          + probeLatencyQ (probe 2)) / (REQUIRED_TESTS : ℚ))
        successRate := some 1 } := by
  have h0 : (probe 0).healthy = true := h 0 (by decide)
  have h1 : (probe 1).healthy = true := h 1 (by decide)
  have h2 : (probe 2).healthy = true := h 2 (by decide)
  have e1 : testStabilityGo probe [] 0 3 = testStabilityGo probe [probe 0] 1 2 :=
    testStabilityGo_healthy_step probe [] 0 2 h0
  have e2 : testStabilityGo probe [probe 0] 1 2
      = testStabilityGo probe [probe 0, probe 1] 2 1 :=
    testStabilityGo_healthy_step probe [probe 0] 1 1 h1
  have e3 : testStabilityGo probe [probe 0, probe 1] 2 1
      = testStabilityGo probe [probe 0, probe 1, probe 2] 3 0 :=
    testStabilityGo_healthy_step probe [probe 0, probe 1] 2 0 h2
  have e4 : testStability probe = stableResult [probe 0, probe 1, probe 2] :=
    (e1.trans e2).trans e3
  rw [e4]
  unfold stableResult
  simp only [List.map_cons, List.map_nil, List.sum_cons, List.sum_nil, List.length_cons,
    List.length_nil]
  norm_num [REQUIRED_TESTS]
  ring_nf

/-- C6 witness: three healthy attempts with latencies 100, 110, 90 yield
`stable = true`, `avgLatency = 100`, `successRate = 1`. -/
theorem testStability_all_healthy_witness :
    testStability probeGoodLat =
      { stable := true, attempt := REQUIRED_TESTS, reason := none
        avgLatency := some 100, successRate := some 1 } := by
  have h := testStability_all_healthy probeGoodLat (fun j hj => by
    have hj3 : j < 3 := hj
    interval_cases j <;> rfl)
  rw [h]
  norm_num [probeGoodLat, probeLatencyQ, verifyRealConnection, REQUIRED_TESTS]

theorem setAdd_mem_self (s : List String) (k : String) : k ∈ setAdd s k := by
  unfold setAdd
  split_ifs with h
  · exact h
  · exact List.mem_append_right _ (List.mem_singleton.mpr rfl)

theorem setAdd_mem_mono (s : List String) (k x : String) (h : x ∈ s) : x ∈ setAdd s k := by
  unfold setAdd
  split_ifs with hk
  · exact h
  · exact List.mem_append_left _ h

theorem mapSet_keys_mono (m : List (String × HealthEntry)) (k' : String)
    (v : HealthEntry) (k : String) (h : k ∈ m.map Prod.fst) :
    k ∈ (mapSet m k' v).map Prod.fst := by
  unfold mapSet
  split_ifs with hk
  · rcases List.mem_map.mp h with ⟨p, hp, hpk⟩
    apply List.mem_map.mpr
    by_cases hpe : p.1 == k'
    · refine ⟨(k', v), List.mem_map.mpr ⟨p, hp, by simp [hpe]⟩, ?_⟩
      have hpk' : p.1 = k' := by simpa using hpe
      simpa [← hpk'] using hpk
    · exact ⟨p, List.mem_map.mpr ⟨p, hp, by simp [hpe]⟩, hpk⟩
  · rw [List.map_append]
    exact List.mem_append_left _ h

theorem processNode_unhealthy_mono (acc : CheckerState × List ScoredNode)
    (item : Node × ProbeEnv) (s : String) (h : s ∈ acc.1.unhealthyNodes) :
    s ∈ (processNode acc item).1.unhealthyNodes := by
  cases hs : (testStability (probeAt item.2)).stable with
  | false =>
      simp only [processNode, hs, Bool.false_eq_true, if_false]
      exact setAdd_mem_mono _ _ _ h
  | true =>
      cases hf : (verifyRealConnection item.2.finalOutcome).healthy with
      | false =>
          simp only [processNode, hs, hf, Bool.false_eq_true, if_true, if_false]
          exact setAdd_mem_mono _ _ _ h
      | true =>
          simp only [processNode, hs, hf, if_true]
          exact h

theorem processNode_healthykeys_mono (acc : CheckerState × List ScoredNode)
    (item : Node × ProbeEnv) (k : String) (h : k ∈ acc.1.healthyNodes.map Prod.fst) :
    k ∈ (processNode acc item).1.healthyNodes.map Prod.fst := by
  cases hs : (testStability (probeAt item.2)).stable with
  | false =>
      simp only [processNode, hs, Bool.false_eq_true, if_false]
      exact h
  | true =>
      cases hf : (verifyRealConnection item.2.finalOutcome).healthy with
      | false =>
          simp only [processNode, hs, hf, Bool.false_eq_true, if_true, if_false]
          exact h
      | true =>
          simp only [processNode, hs, hf, if_true]
          exact mapSet_keys_mono _ _ _ _ h

theorem processNode_fail_adds (acc : CheckerState × List ScoredNode)
    (item : Node × ProbeEnv) (h : nodeSucceeds item = false) :
    item.1.id ∈ (processNode acc item).1.unhealthyNodes := by
  unfold nodeSucceeds at h
  cases hs : (testStability (probeAt item.2)).stable with
  | false =>
      simp only [processNode, hs, Bool.false_eq_true, if_false]
      exact setAdd_mem_self _ _
  | true =>
      cases hf : (verifyRealConnection item.2.finalOutcome).healthy with
      | false =>
          simp only [processNode, hs, hf, Bool.false_eq_true, if_true, if_false]
          exact setAdd_mem_self _ _
      | true =>
          rw [hs, hf] at h
          simp at h

theorem foldl_unhealthy_mono (items : List (Node × ProbeEnv)) :
    ∀ (acc : CheckerState × List ScoredNode) (s : String), s ∈ acc.1.unhealthyNodes →
      s ∈ (items.foldl processNode acc).1.unhealthyNodes := by
  induction items with
  | nil => intro acc s h; exact h
  | cons item rest ih =>
      intro acc s h
      simp only [List.foldl_cons]
      exact ih _ _ (processNode_unhealthy_mono _ _ _ h)

theorem foldl_healthykeys_mono (items : List (Node × ProbeEnv)) :
    ∀ (acc : CheckerState × List ScoredNode) (k : String), k ∈ acc.1.healthyNodes.map Prod.fst →
      k ∈ (items.foldl processNode acc).1.healthyNodes.map Prod.fst := by
  induction items with
  | nil => intro acc k h; exact h
  | cons item rest ih =>
      intro acc k h
      simp only [List.foldl_cons]
      exact ih _ _ (processNode_healthykeys_mono _ _ _ h)

theorem foldl_fail_adds (items : List (Node × ProbeEnv)) :
    ∀ (acc : CheckerState × List ScoredNode) (item : Node × ProbeEnv),
      item ∈ items → nodeSucceeds item = false →
      item.1.id ∈ (items.foldl processNode acc).1.unhealthyNodes := by
  induction items with
  | nil => intro acc item h; exact absurd h (List.not_mem_nil item)
  | cons it rest ih =>
      intro acc item hmem hfail
      simp only [List.foldl_cons]
      rcases List.mem_cons.mp hmem with rfl | hmem'
      · exact foldl_unhealthy_mono rest _ _ (processNode_fail_adds acc item hfail)
      · exact ih _ _ hmem' hfail

/-- C2 counterexample: a node that succeeded in an earlier invocation and fails
in a later one ends the later invocation with its identifier recorded in the
unhealthy set AND still present as a key of the healthy map — `checkAllNodes`
never deletes from `healthyNodes`. -/
theorem checkAll_failed_node_stays_in_healthy_map :
    nodeSucceeds (nodeA, envFailing) = false
    ∧ nodeA.id ∈ (checkAllNodes (checkAllNodes initialChecker [(nodeA, envGood)]).1
        [(nodeA, envFailing)]).1.unhealthyNodes
    ∧ nodeA.id ∈ (checkAllNodes (checkAllNodes initialChecker [(nodeA, envGood)]).1
        [(nodeA, envFailing)]).1.healthyNodes.map Prod.fst := by
  refine ⟨rfl, ?_, ?_⟩ <;> decide

/-- C2 amended: every node that fails (unstable, or unhealthy on the
confirmation probe) during a `checkAllNodes` invocation has its identifier
recorded in the unhealthy set, but its entry is NOT removed from the healthy
map: every identifier present in the healthy map before the invocation is still
present after it. -/
theorem checkAll_failed_recorded_unhealthy (st : CheckerState)
    (items : List (Node × ProbeEnv)) :
    (∀ item ∈ items, nodeSucceeds item = false →
        item.1.id ∈ (checkAllNodes st items).1.unhealthyNodes)
    ∧ ∀ k, k ∈ st.healthyNodes.map Prod.fst →
        k ∈ (checkAllNodes st items).1.healthyNodes.map Prod.fst := by
  constructor
  · intro item hmem hfail
    exact foldl_fail_adds items (st, []) item hmem hfail
  · intro k hk
    exact foldl_healthykeys_mono items (st, []) k hk

/-- C2 amended, witness: a failing node's id lands in the unhealthy set, and a
pre-existing healthy-map key survives the invocation. -/
theorem checkAll_failed_recorded_unhealthy_witness :
    nodeA.id ∈ (checkAllNodes stTwoEntries [(nodeA, envFailing)]).1.unhealthyNodes
    ∧ "n60" ∈ (checkAllNodes stTwoEntries [(nodeA, envFailing)]).1.healthyNodes.map Prod.fst := by
  refine ⟨(checkAll_failed_recorded_unhealthy stTwoEntries [(nodeA, envFailing)]).1
      (nodeA, envFailing) (List.mem_singleton.mpr rfl) rfl,
    (checkAll_failed_recorded_unhealthy stTwoEntries [(nodeA, envFailing)]).2
      "n60" (by decide)⟩

theorem filter_orderedInsert (q : ℚ) (x : ScoredNode) (l : List ScoredNode) :
    (List.orderedInsert scoreGE x l).filter (fun n => n.score == q)
      = (x :: l).filter (fun n => n.score == q) := by
  induction l with
  | nil => rfl
  | cons b l ih =>
      by_cases hr : scoreGE x b
      · rw [List.orderedInsert_of_le scoreGE l hr]
      · have hlt : x.score < b.score := lt_of_not_le hr
        have hxb : ¬(x.score == q ∧ b.score == q) := by
          rintro ⟨hx, hb⟩
          rw [beq_iff_eq] at hx hb
          rw [hx] at hlt
          rw [hb] at hlt
          exact lt_irrefl q hlt
        simp only [List.orderedInsert, if_neg hr]
        by_cases hx : x.score == q <;> by_cases hb : b.score == q
        · exact absurd ⟨hx, hb⟩ hxb
        · simp only [List.filter_cons, hx, hb, ih]
          simp [hx, hb]
        · simp only [List.filter_cons, hx, hb, ih]
          simp [hx, hb]
        · simp only [List.filter_cons, hx, hb, ih]
          simp [hx, hb]

theorem filter_insertionSort (q : ℚ) (l : List ScoredNode) :
    (List.insertionSort scoreGE l).filter (fun n => n.score == q)
      = l.filter (fun n => n.score == q) := by
  induction l with
  | nil => rfl
  | cons b l ih =>
      show (List.orderedInsert scoreGE b (List.insertionSort scoreGE l)).filter _ = _
      rw [filter_orderedInsert]
      simp only [List.filter_cons, ih]

/-- C8: the healthy list returned by `checkAllNodes` is sorted by score in
descending order (`scoreGE a b` means `b.score ≤ a.score`), and the sort is
stable: for every score value, filtering the output to that score gives exactly
the same sequence as filtering the collected healthy nodes — which appear in
input-list order — to that score. -/
theorem checkAll_sorted_by_score (st : CheckerState) (items : List (Node × ProbeEnv)) :
    List.Sorted scoreGE ((checkAllNodes st items).2.healthy)
    ∧ ∀ q : ℚ,
      ((checkAllNodes st items).2.healthy).filter (fun n => n.score == q)
        = ((collectNodes st items).2).filter (fun n => n.score == q) := by
  constructor
  · exact List.sorted_insertionSort scoreGE ((collectNodes st items).2)
  · intro q
    exact filter_insertionSort q ((collectNodes st items).2)

theorem verifyRealConnection_healthy_success (o : FetchOutcome)
    (h : (verifyRealConnection o).healthy = true) :
    ∃ lat status, o = .success lat status ∧ validateResponse status lat = true ∧
      (verifyRealConnection o).latency = some lat := by
  cases o with
  | success lat status => exact ⟨lat, status, rfl, h, rfl⟩
  | failure m => simp [verifyRealConnection] at h

theorem calculateScore_le_119 (cur avg : ℚ) (h : 1 ≤ cur) :
    calculateScore cur avg ≤ 119 := by
  unfold calculateScore
  have h1 : max 0 (100 - cur) ≤ 99 := max_le (by norm_num) (by linarith)
  split_ifs <;> simp only <;> linarith

theorem processNode_latency_bounds (acc : CheckerState × List ScoredNode)
    (item : Node × ProbeEnv)
    (hacc : ∀ n ∈ acc.2, 1 ≤ n.latency ∧ n.latency ≤ MAX_LATENCY ∧ n.score ≤ 119) :
    ∀ n ∈ (processNode acc item).2,
      1 ≤ n.latency ∧ n.latency ≤ MAX_LATENCY ∧ n.score ≤ 119 := by
  cases hs : (testStability (probeAt item.2)).stable with
  | false =>
      simp only [processNode, hs, Bool.false_eq_true, if_false]
      exact hacc
  | true =>
      cases hf : (verifyRealConnection item.2.finalOutcome).healthy with
      | false =>
          simp only [processNode, hs, hf, Bool.false_eq_true, if_true, if_false]
          exact hacc
      | true =>
          simp only [processNode, hs, hf, if_true]
          intro n hn
          rcases List.mem_append.mp hn with hold | hnew
          · exact hacc n hold
          · rcases verifyRealConnection_healthy_success _ hf with ⟨lat, status, _, hval, hlat⟩
            have hb := (validateResponse_true_iff status lat).mp hval
            have hmem := List.mem_singleton.mp hnew
            subst hmem
            refine ⟨?_, ?_, ?_⟩
            · simp only [hlat, Option.getD_some]
              exact hb.1
            · simp only [hlat, Option.getD_some]
              exact hb.2.1
            · simp only [hlat, Option.getD_some]
              apply calculateScore_le_119
              exact_mod_cast hb.1

theorem foldl_latency_bounds (items : List (Node × ProbeEnv)) :
    ∀ acc : CheckerState × List ScoredNode,
      (∀ n ∈ acc.2, 1 ≤ n.latency ∧ n.latency ≤ MAX_LATENCY ∧ n.score ≤ 119) →
      ∀ n ∈ (items.foldl processNode acc).2,
        1 ≤ n.latency ∧ n.latency ≤ MAX_LATENCY ∧ n.score ≤ 119 := by
  induction items with
  | nil => intro acc hacc; exact hacc
  | cons item rest ih =>
      intro acc hacc
      simp only [List.foldl_cons]
      exact ih _ (processNode_latency_bounds _ _ hacc)

/-- C10: every node in the healthy output of `checkAllNodes` has a confirmation
latency in `[1, MAX_LATENCY]` (it passed `validateResponse` on the confirmation
probe), and therefore its score is at most 119 — the nominal 120 maximum is
never attained. -/
theorem checkAll_healthy_latency_bounds (st : CheckerState)
    (items : List (Node × ProbeEnv)) :
    ∀ n ∈ (checkAllNodes st items).2.healthy,
      1 ≤ n.latency ∧ n.latency ≤ MAX_LATENCY ∧ n.score ≤ 119 := by
  intro n hn
  have hn' : n ∈ (collectNodes st items).2 :=
    (List.perm_insertionSort scoreGE ((collectNodes st items).2)).mem_iff.mp hn
  exact foldl_latency_bounds items (st, [])
    (fun n h => absurd h (List.not_mem_nil n)) n hn'

/-- C10 witness: on a node whose probes all succeed at 50 ms, the single output
node has latency 50 ∈ [1, 150] and score 70 ≤ 119. -/
theorem checkAll_healthy_latency_bounds_witness :
    1 ≤ (⟨nodeA, 50, 50, 70⟩ : ScoredNode).latency
    ∧ (⟨nodeA, 50, 50, 70⟩ : ScoredNode).latency ≤ MAX_LATENCY
    ∧ (⟨nodeA, 50, 50, 70⟩ : ScoredNode).score ≤ 119 :=
  checkAll_healthy_latency_bounds initialChecker [(nodeA, envGood)]
    ⟨nodeA, 50, 50, 70⟩ (by
      have he : (checkAllNodes initialChecker [(nodeA, envGood)]).2.healthy
          = [⟨nodeA, 50, 50, 70⟩] := by
        norm_num [checkAllNodes, collectNodes, processNode, probeAt, envGood,
          testStability, testStabilityGo, verifyRealConnection, validateResponse,
          stableResult, probeLatencyQ, calculateScore, initialChecker, mapSet,
          REQUIRED_TESTS, MAX_LATENCY, List.insertionSort]
      rw [he]
      exact List.mem_singleton.mpr rfl)

theorem entryLatency_nonneg (e : HealthEntry) : 0 ≤ entryLatency e :=
  Int.ofNat_nonneg _

theorem find_cons_pos {α : Type} (p : α → Bool) (a : α) (l : List α)
    (h : p a = true) : (a :: l).find? p = some a := by
  simp [List.find?, h]

theorem find_cons_neg {α : Type} (p : α → Bool) (a : α) (l : List α)
    (h : p a = false) : (a :: l).find? p = l.find? p := by
  simp [List.find?, h]

theorem getBestLoop_some (l : List (String × HealthEntry)) :
    ∀ b : HealthEntry,
      getBestLoop (some b, entryLatency b) l
        = (some (bestScan b l), entryLatency (bestScan b l)) := by
  induction l with
  | nil => intro b; rfl
  | cons p rest ih =>
      intro b
      have hne : ¬((some b, entryLatency b).2 = -1) := by
        have := entryLatency_nonneg b
        simp only
        omega
      by_cases h : entryLatency p.2 < entryLatency b
      · simp only [getBestLoop]
        rw [if_pos (Or.inl h)]
        simp only [bestScan, if_pos h]
        exact ih p.2
      · simp only [getBestLoop]
        rw [if_neg (by
          rintro (hc | hc)
          · exact h hc
          · exact hne hc)]
        simp only [bestScan, if_neg h]
        exact ih b

theorem getBestNode_cons (st : CheckerState) (p : String × HealthEntry)
    (rest : List (String × HealthEntry)) (hl : st.healthyNodes = p :: rest) :
    getBestNode st = some (bestScan p.2 rest) := by
  unfold getBestNode
  rw [hl]
  simp only [getBestLoop, or_true, if_true]
  rw [getBestLoop_some rest p.2]

theorem bestScan_mem (l : List (String × HealthEntry)) :
    ∀ b : HealthEntry, bestScan b l ∈ b :: l.map Prod.snd := by
  induction l with
  | nil => intro b; exact List.mem_singleton.mpr rfl
  | cons p rest ih =>
      intro b
      simp only [bestScan, List.map_cons]
      by_cases h : entryLatency p.2 < entryLatency b
      · rw [if_pos h]
        exact List.mem_cons_of_mem b (ih p.2)
      · rw [if_neg h]
        rcases List.mem_cons.mp (ih b) with hb | hmem
        · rw [hb]
          exact List.mem_cons_self _ _
        · exact List.mem_cons_of_mem b (List.mem_cons_of_mem p.2 hmem)

theorem bestScan_min (l : List (String × HealthEntry)) :
    ∀ b : HealthEntry, ∀ x ∈ b :: l.map Prod.snd,
      entryLatency (bestScan b l) ≤ entryLatency x := by
  induction l with
  | nil =>
      intro b x hx
      simp only [List.map_nil] at hx
      rw [List.mem_singleton.mp hx]
      exact le_refl _
  | cons p rest ih =>
      intro b x hx
      simp only [List.map_cons] at hx
      simp only [bestScan]
      by_cases h : entryLatency p.2 < entryLatency b
      · rw [if_pos h]
        rcases List.mem_cons.mp hx with hxb | hx'
        · have h1 : entryLatency (bestScan p.2 rest) ≤ entryLatency p.2 :=
            ih p.2 p.2 (List.mem_cons_self _ _)
          rw [hxb]
          exact le_trans h1 (le_of_lt h)
        · exact ih p.2 x hx'
      · rw [if_neg h]
        rcases List.mem_cons.mp hx with hxb | hx'
        · rw [hxb]
          exact ih b b (List.mem_cons_self _ _)
        · rcases List.mem_cons.mp hx' with hxp | hx''
          · have h1 : entryLatency (bestScan b rest) ≤ entryLatency b :=
              ih b b (List.mem_cons_self _ _)
            rw [hxp]
            exact le_trans h1 (le_of_not_lt h)
          · exact ih b x (List.mem_cons_of_mem b hx'')

theorem bestScan_find (l : List (String × HealthEntry)) :
    ∀ b : HealthEntry,
      (b :: l.map Prod.snd).find?
        (fun x => entryLatency x == entryLatency (bestScan b l))
        = some (bestScan b l) := by
  induction l with
  | nil =>
      intro b
      simp [bestScan]
  | cons p rest ih =>
      intro b
      simp only [bestScan, List.map_cons]
      by_cases h : entryLatency p.2 < entryLatency b
      · rw [if_pos h]
        have hmin : entryLatency (bestScan p.2 rest) ≤ entryLatency p.2 :=
          bestScan_min rest p.2 p.2 (List.mem_cons_self _ _)
        have hbf : (entryLatency b == entryLatency (bestScan p.2 rest)) = false := by
          simp only [beq_eq_false_iff_ne, ne_eq]
          omega
        rw [find_cons_neg _ b _ hbf]
        exact ih p.2
      · rw [if_neg h]
        have hble : entryLatency b ≤ entryLatency p.2 := le_of_not_lt h
        by_cases hb : (entryLatency b == entryLatency (bestScan b rest)) = true
        · have hfind := ih b
          rw [find_cons_pos _ b _ hb] at hfind
          have hbe : b = bestScan b rest := by
            injection hfind
          rw [find_cons_pos _ b _ hb, ← hbe]
        · have hbf : (entryLatency b == entryLatency (bestScan b rest)) = false :=
            Bool.eq_false_iff.mpr hb
          have hfind := ih b
          rw [find_cons_neg _ b _ hbf] at hfind
          have hemin : entryLatency (bestScan b rest) ≤ entryLatency b :=
            bestScan_min rest b b (List.mem_cons_self _ _)
          have hne : entryLatency b ≠ entryLatency (bestScan b rest) := by
            intro hc
            rw [hc] at hb
            exact hb (beq_self_eq_true _)
          have hpf : (entryLatency p.2 == entryLatency (bestScan b rest)) = false := by
            simp only [beq_eq_false_iff_ne, ne_eq]
            omega
          rw [find_cons_neg _ b _ hbf, find_cons_neg _ p.2 _ hpf]
          exact hfind

/-- C7: for a registry whose entries all carry a recorded confirmation latency,
`getBestNode` returns `none` iff the healthy map is empty; when it returns an
entry, that entry is in the map, its `entryLatency` is its recorded confirmation
latency, it has the minimal latency among all entries, and it is the FIRST entry
attaining that latency in registry insertion order (it is what `find?` for that
latency returns). -/
theorem getBestNode_spec (st : CheckerState)
    (hwf : ∀ p ∈ st.healthyNodes, (p.2).health.latency.isSome = true) :
    (getBestNode st = none ↔ st.healthyNodes = [])
    ∧ ∀ e, getBestNode st = some e →
        e ∈ st.healthyNodes.map Prod.snd
        ∧ (∃ l, e.health.latency = some l ∧ entryLatency e = (l : Int))
        ∧ (∀ x ∈ st.healthyNodes.map Prod.snd, entryLatency e ≤ entryLatency x)
        ∧ (st.healthyNodes.map Prod.snd).find?
            (fun x => entryLatency x == entryLatency e) = some e := by
  cases hl : st.healthyNodes with
  | nil =>
      constructor
      · constructor
        · intro _
          rfl
        · intro _
          unfold getBestNode
          rw [hl]
          rfl
      · intro e he
        unfold getBestNode at he
        rw [hl] at he
        exact absurd he (by simp [getBestLoop])
  | cons p rest =>
      have hbn : getBestNode st = some (bestScan p.2 rest) := getBestNode_cons st p rest hl
      constructor
      · constructor
        · intro h
          rw [hbn] at h
          exact absurd h (by simp)
        · intro h
          exact absurd h (by simp)
      · intro e he
        rw [hbn] at he
        have hee : bestScan p.2 rest = e := by
          injection he
        rw [← hee]
        simp only [List.map_cons]
        refine ⟨bestScan_mem rest p.2, ?_, bestScan_min rest p.2, bestScan_find rest p.2⟩
        have hm : bestScan p.2 rest ∈ (p :: rest).map Prod.snd := by
          simpa using bestScan_mem rest p.2
        rcases List.mem_map.mp hm with ⟨q, hq, hqe⟩
        have hws := hwf q (by rw [hl]; exact hq)
        rcases Option.isSome_iff_exists.mp hws with ⟨lat, hsome⟩
        refine ⟨lat, ?_, ?_⟩
        · rw [← hqe]
          exact hsome
        · rw [← hqe]
          simp [entryLatency, hsome]

/-- C7 witness: on a registry holding confirmation latencies 80 then 60, the
entry `getBestNode` picks (the 60 ms one) is in the registry and minimizes the
recorded latency. -/
theorem getBestNode_spec_witness :
    entryOf "n60" 60 ∈ stTwoEntries.healthyNodes.map Prod.snd
    ∧ ∀ x ∈ stTwoEntries.healthyNodes.map Prod.snd,
        entryLatency (entryOf "n60" 60) ≤ entryLatency x := by
  have hwf : ∀ p ∈ stTwoEntries.healthyNodes, (p.2).health.latency.isSome = true := by
    intro p hp
    simp only [stTwoEntries, List.mem_cons, List.not_mem_nil, or_false] at hp
    rcases hp with rfl | rfl <;> rfl
  have h := (getBestNode_spec stTwoEntries hwf).2 (entryOf "n60" 60) (by decide)
  exact ⟨h.1, h.2.2.1⟩

end HealthPatch
